import Mathlib

/-!
Verification of the Wairstro orchestration app against its specification.

The TypeScript sources are shallowly embedded here: strings are modelled as
`String` (manipulated through their underlying `List Char` so that every
definition is kernel-executable), JavaScript `Record`s as association lists,
and stateful services as explicit state-passing functions.  JavaScript
truthiness of a string is modelled as being nonempty; an absent (`undefined`)
field is modelled with `Option`.
-/

namespace Wairstro

/-! ## Character-list string primitives (JavaScript semantics) -/

/-- `String.prototype.trim` on the underlying character list: drop leading and
trailing whitespace. -/
def trimCL (l : List Char) : List Char :=
  ((l.dropWhile Char.isWhitespace).reverse.dropWhile Char.isWhitespace).reverse

/-- `trim` lifted to `String`. -/
def jsTrim (s : String) : String :=
  String.mk (trimCL s.data)

/-- Global single-character replacement, the semantics of
`str.replace(/x/g, "y")` for one-character patterns. -/
def replAll (a b : Char) (l : List Char) : List Char :=
  l.map fun c => if c = a then b else c

/-- ASCII `toLowerCase` on a character list. -/
def toLowerCL (l : List Char) : List Char :=
  l.map Char.toLower

/-- `toLowerCase` lifted to `String`. -/
def jsToLower (s : String) : String :=
  String.mk (toLowerCL s.data)

/-- First index at which `pat` occurs in `s`, the semantics of
`String.prototype.indexOf` (with `none` for `-1`). -/
def findIdx? (s pat : List Char) : Option Nat :=
  if pat.isPrefixOf s then some 0
  else
    match s with
    | [] => none
    | _ :: t => (findIdx? t pat).map (· + 1)

/-- `String.prototype.includes` for character lists. -/
def containsCL (s pat : List Char) : Bool :=
  (findIdx? s pat).isSome

/-- Substring containment lifted to `String`. -/
def strIncludes (s pat : String) : Bool :=
  containsCL s.data pat.data

/-- `a || b` on JavaScript strings: `a` when nonempty, otherwise `b`. -/
def jsOr (a b : String) : String :=
  if a = "" then b else a

/-! ## `src/main/services/signal-service.ts` -/

namespace Signal

/-- A timestamped announcement, `SignalAnnouncement` in the source. -/
structure SignalAnnouncement where
  agentId : String
  message : String
  timestamp : Nat
deriving DecidableEq, Repr

/-- `SignalState`: the lock record (modelled as an association list from
normalized path to owning agent id) and the announcement list. -/
structure SignalState where
  locks : List (String × String)
  announcements : List SignalAnnouncement
deriving DecidableEq, Repr

/-- The empty state a fresh `SignalService` starts with. -/
def emptyState : SignalState :=
  { locks := [], announcements := [] }

/-- `MAX_ANNOUNCEMENTS` from the source. -/
def MAX_ANNOUNCEMENTS : Nat := 200

/-- `normalizeFilePath`: trim, then replace every backslash with `/`. -/
def normalizeFilePath (filePath : String) : String :=
  String.mk (replAll '\\' '/' (trimCL filePath.data))

/-- Assignment `locks[path] = agent` on the association-list model of a
JavaScript record: update in place when the key exists, else append. -/
def setLock (locks : List (String × String)) (k v : String) : List (String × String) :=
  if (locks.lookup k).isSome then
    locks.map fun p => if p.1 = k then (k, v) else p
  else
    locks ++ [(k, v)]

/-- Result of a lock operation: the returned boolean, the state after the
call, and whether an `updated` event was emitted. -/
structure LockOpResult where
  ok : Bool
  state : SignalState
  emitted : Bool
deriving DecidableEq, Repr

/-- `SignalService.acquireLock`.  Rejects blank agent id or path; fails
without change when the path is owned by a different agent; otherwise stores
the trimmed agent id as owner and emits `updated`. -/
def acquireLock (agentId filePath : String) (s : SignalState) : LockOpResult :=
  let na := jsTrim agentId
  let np := normalizeFilePath filePath
  if na = "" ∨ np = "" then ⟨false, s, false⟩
  else
    match s.locks.lookup np with
    | some owner =>
        if owner ≠ "" ∧ owner ≠ na then ⟨false, s, false⟩
        else ⟨true, { s with locks := setLock s.locks np na }, true⟩
    | none => ⟨true, { s with locks := setLock s.locks np na }, true⟩

/-- `SignalService.releaseLock`.  Rejects blank inputs; succeeds (deleting the
entry and emitting `updated`) only when the stored owner equals the trimmed
agent id. -/
def releaseLock (agentId filePath : String) (s : SignalState) : LockOpResult :=
  let na := jsTrim agentId
  let np := normalizeFilePath filePath
  if na = "" ∨ np = "" then ⟨false, s, false⟩
  else
    match s.locks.lookup np with
    | some owner =>
        if owner = na then
          ⟨true, { s with locks := s.locks.filter fun p => p.1 ≠ np }, true⟩
        else ⟨false, s, false⟩
    | none => ⟨false, s, false⟩

/-- `SignalService.broadcast` (with `Date.now()` passed in explicitly):
returns the created announcement (or `none` on blank input), the next state,
and whether `updated` was emitted.  The list is trimmed to the most recent
`MAX_ANNOUNCEMENTS` entries. -/
def broadcast (agentId message : String) (now : Nat) (s : SignalState) :
    Option SignalAnnouncement × SignalState × Bool :=
  let na := jsTrim agentId
  let nm := jsTrim message
  if na = "" ∨ nm = "" then (none, s, false)
  else
    let a : SignalAnnouncement := ⟨na, nm, now⟩
    let anns := s.announcements ++ [a]
    let anns := anns.drop (anns.length - MAX_ANNOUNCEMENTS)
    (some a, { s with announcements := anns }, true)

/-- One broadcast request: agent id, message, timestamp. -/
abbrev BroadcastMsg := String × String × Nat

/-- The announcement a valid broadcast request creates. -/
def mkAnn (m : BroadcastMsg) : SignalAnnouncement :=
  ⟨jsTrim m.1, jsTrim m.2.1, m.2.2⟩

/-- A broadcast request that passes the blank-input validation. -/
def ValidMsg (m : BroadcastMsg) : Prop :=
  jsTrim m.1 ≠ "" ∧ jsTrim m.2.1 ≠ ""

instance : DecidablePred ValidMsg := fun m => by
  unfold ValidMsg; infer_instance

/-- Run a sequence of broadcasts, keeping only the final state. -/
def broadcastMany (ms : List BroadcastMsg) (s : SignalState) : SignalState :=
  ms.foldl (fun st m => (broadcast m.1 m.2.1 m.2.2 st).2.1) s

/-- The lock-exclusivity scenario: `A` acquires an unlocked path, `B` can
neither acquire nor release it (no state change, no event), `A` releases it,
and `B` can then acquire it. -/
def LockExclusivity (A B f : String) (s : SignalState) : Prop :=
  (acquireLock A f s).ok = true ∧
  (acquireLock A f s).state.locks.lookup (normalizeFilePath f) = some (jsTrim A) ∧
  (acquireLock B f (acquireLock A f s).state).ok = false ∧
  (acquireLock B f (acquireLock A f s).state).state = (acquireLock A f s).state ∧
  (acquireLock B f (acquireLock A f s).state).emitted = false ∧
  (releaseLock B f (acquireLock A f s).state).ok = false ∧
  (releaseLock B f (acquireLock A f s).state).state = (acquireLock A f s).state ∧
  (releaseLock B f (acquireLock A f s).state).emitted = false ∧
  (releaseLock A f (acquireLock A f s).state).ok = true ∧
  (releaseLock A f (acquireLock A f s).state).state.locks.lookup (normalizeFilePath f) = none ∧
  (acquireLock B f (releaseLock A f (acquireLock A f s).state).state).ok = true ∧
  (acquireLock B f (releaseLock A f (acquireLock A f s).state).state).state.locks.lookup
    (normalizeFilePath f) = some (jsTrim B)

end Signal

/-! ## `src/shared/task-routing.ts` -/

namespace TaskRouting

/-- The two task profiles. -/
inductive TaskProfile where
  | UI
  | Logic
deriving DecidableEq, Repr

/-- The literal string value of a profile (`'UI' | 'Logic'` in TS). -/
def profileTag : TaskProfile → String
  | .UI => "UI"
  | .Logic => "Logic"

/-- `normalizeTag`: trim then lowercase. -/
def normalizeTag (tag : String) : String :=
  jsToLower (jsTrim tag)

/-- `hasUiTag`. -/
def hasUiTag (tags : List String) : Bool :=
  tags.any fun tag => normalizeTag tag == "ui"

/-- `hasLogicTag`. -/
def hasLogicTag (tags : List String) : Bool :=
  tags.any fun tag => normalizeTag tag == "logic"

/-- `resolveTaskProfile`: `UI` only when a `ui` tag is present without a
`logic` tag, `Logic` otherwise. -/
def resolveTaskProfile (tags : List String) : TaskProfile :=
  if hasUiTag tags && !hasLogicTag tags then .UI else .Logic

/-- `mergeProfileTag`: drop every existing ui/logic tag, append the new
profile value. -/
def mergeProfileTag (tags : List String) (profile : TaskProfile) : List String :=
  (tags.filter fun tag =>
    !(normalizeTag tag == "ui") && !(normalizeTag tag == "logic")) ++ [profileTag profile]

/-- `routeAgentForTags`: the worker-agent-type routing rule. -/
def routeAgentForTags (tags : List String) : String :=
  if hasUiTag tags && !hasLogicTag tags then "gemini-cli" else "codex"

end TaskRouting

/-! ## `src/main/services/orchestrator/worker-agent.ts` -/

namespace Worker

/-- `ExitRiskLevel` from `agent-base.ts`. -/
inductive ExitRiskLevel where
  | Low
  | Medium
  | High
deriving DecidableEq, Repr

/-- The sensitive-path test `/(auth|security|credential|secret|token|payment|permission|policy)/i`:
case-insensitive substring match of any keyword. -/
def sensitivePath (file : String) : Bool :=
  ["auth", "security", "credential", "secret", "token", "payment",
    "permission", "policy"].any fun k => containsCL (toLowerCL file.data) k.data

/-- `WorkerAgent.inferRiskLevel`. -/
def inferRiskLevel (filesTouched : List String) : ExitRiskLevel :=
  if 12 ≤ filesTouched.length then .High
  else if filesTouched.any sensitivePath then .High
  else if filesTouched.length ≤ 2 then .Low
  else .Medium

/-- The risk level `buildExitReport` writes: re-infer only when the configured
level was left at `Medium`. -/
def exitReportRisk (riskLevel : ExitRiskLevel) (filesTouched : List String) : ExitRiskLevel :=
  if riskLevel = .Medium then inferRiskLevel filesTouched else riskLevel

/-- `MAX_RETIRES` from the source (the visual-QA attempt budget). -/
def MAX_RETIRES : Nat := 3

/-- The value `verifyUi` resolves with. -/
structure VisualQaResult where
  verified : Bool
  attempts : Nat
  feedback : Option String
deriving DecidableEq, Repr

/-- `verifyUi` plus the counts of its observable side effects: screenshot
captures, critic invocations, and correction cycles, together with the
`verificationStepsText` it leaves behind. -/
structure VisualQaTrace where
  result : VisualQaResult
  captures : Nat
  criticCalls : Nat
  corrections : Nat
  verificationSteps : String
deriving DecidableEq, Repr

/-- The `for (attempt = 1; attempt <= MAX_RETIRES; ...)` loop of `verifyUi`.
`critic attempt` is the outcome of `runVisualCritic` on that attempt
(`matched`, `feedback`); each iteration performs one capture and one critic
call, and a correction cycle runs only when the attempt failed and was not the
last one.  `fuel` is the number of remaining iterations. -/
def verifyUiGo (critic : Nat → Bool × String) :
    Nat → Nat → String → Nat → Nat → Nat → VisualQaTrace
  | 0, _, lastFeedback, caps, crits, cors =>
      ⟨⟨false, MAX_RETIRES, some lastFeedback⟩, caps, crits, cors,
        "Visual QA failed after " ++ Nat.repr MAX_RETIRES ++ " attempts." ++
          (if lastFeedback ≠ "" then " Remaining feedback: " ++ lastFeedback else "")⟩
  | fuel + 1, attempt, _, caps, crits, cors =>
      let step := critic attempt
      if step.1 then
        ⟨⟨true, attempt, none⟩, caps + 1, crits + 1, cors,
          "Visual QA passed after " ++ Nat.repr attempt ++ " attempt(s)."⟩
      else if attempt < MAX_RETIRES then
        verifyUiGo critic fuel (attempt + 1) step.2 (caps + 1) (crits + 1) (cors + 1)
      else
        ⟨⟨false, MAX_RETIRES, some step.2⟩, caps + 1, crits + 1, cors,
          "Visual QA failed after " ++ Nat.repr MAX_RETIRES ++ " attempts." ++
            (if step.2 ≠ "" then " Remaining feedback: " ++ step.2 else "")⟩

/-- `WorkerAgent.verifyUi`: when the Figma reference image is missing, skip
with zero attempts; otherwise run the capture/critic/correction loop. -/
def verifyUi (referenceExists : Bool) (critic : Nat → Bool × String) : VisualQaTrace :=
  if referenceExists then
    verifyUiGo critic MAX_RETIRES 1 "" 0 0 0
  else
    ⟨⟨false, 0, some "Missing figma_reference.png."⟩, 0, 0, 0,
      "Visual QA skipped: .wairstro/snapshots/figma_reference.png was not found."⟩

end Worker

/-! ## `OrchestratorService.executeSprintPlan` and `findWorkerType` -/

namespace Orch

/-- The fields of an existing session that `executeSprintPlan` and
`findWorkerType` read.  Absent/undefined string fields are modelled as `""`
(JavaScript falsy). -/
structure ExistingSession where
  id : String
  parentSessionId : String
  state : String
  toolType : String
  projectRoot : String
  cwd : String
  name : String
deriving DecidableEq, Repr

/-- A planned task (only the fields the plan executor reads). -/
structure SprintPlanTask where
  id : Nat
  title : String
  tags : List String
deriving DecidableEq, Repr

/-- A package of the execution plan. -/
structure SprintPlanPackage where
  packageKey : String
  packageName : String
  packagePath : String
  role : String
  tasks : List SprintPlanTask
deriving DecidableEq, Repr

/-- One entry of the `workers` array `executeSprintPlan` returns. -/
structure SprintWorkerPlan where
  packageKey : String
  packageName : String
  packagePath : String
  role : String
  action : String
  workerSessionId : Option String
  workerName : String
  workerType : String
  status : String
  tasks : List SprintPlanTask
deriving DecidableEq, Repr

/-- `findWorkerType`: the tool type of the first session whose tool type is
truthy and not `'terminal'`, defaulting to `'codex'`. -/
def findWorkerType (existingSessions : List ExistingSession) : String :=
  match existingSessions.find? fun s => !(s.toolType == "") && !(s.toolType == "terminal") with
  | some s => jsOr s.toolType "codex"
  | none => "codex"

/-- The reusable-session predicate inside `executeSprintPlan`. -/
def reusableFor (routedWorkerType : String) (pkg : SprintPlanPackage)
    (s : ExistingSession) : Bool :=
  !(s.id == "") && (s.parentSessionId == "") &&
    ((s.state == "") || (s.state == "idle")) &&
    ((s.toolType == "") || (s.toolType == routedWorkerType)) &&
    (String.mk (replAll '\\' '/' (jsOr s.projectRoot s.cwd).data) ==
      String.mk (replAll '\\' '/' pkg.packagePath.data))

/-- `executeSprintPlan` (timestamps omitted): maps each planned package to a
worker plan, routing the worker type on the concatenation of all the
package's task tags and falling back to `findWorkerType` only when the routed
type is falsy. -/
def executeSprintPlan (packages : List SprintPlanPackage)
    (existingSessions : List ExistingSession) : List SprintWorkerPlan :=
  let defaultWorkerType := findWorkerType existingSessions
  packages.map fun pkg =>
    let taskTags := pkg.tasks.flatMap fun t => t.tags
    let routedWorkerType := jsOr (TaskRouting.routeAgentForTags taskTags) defaultWorkerType
    let reusable := existingSessions.find? (reusableFor routedWorkerType pkg)
    { packageKey := pkg.packageKey
      packageName := pkg.packageName
      packagePath := pkg.packagePath
      role := pkg.role
      action := if reusable.isSome then "reuse" else "create"
      workerSessionId := reusable.map fun s => s.id
      workerName :=
        match reusable with
        | some s => jsOr s.name ("Agent-" ++ pkg.packageName)
        | none => "Agent-" ++ pkg.packageName
      workerType := routedWorkerType
      status := if 0 < pkg.tasks.length then "busy" else "idle"
      tasks := pkg.tasks }

end Orch

/-! ## `GeminiOutputParser.transformMessage` -/

namespace Gemini

/-- A field that is either a JSON string or an object with an optional
string member (the `message`/`content` shapes of `GeminiRawMessage`). -/
inductive StrOrObj where
  | str (s : String)
  | obj (inner : Option String)
deriving DecidableEq, Repr

/-- The `error` field: a string or an object with an optional `message`. -/
inductive ErrField where
  | str (s : String)
  | obj (message : Option String)
deriving DecidableEq, Repr

/-- The raw `usage` block. -/
structure RawUsage where
  input_tokens : Option Nat := none
  output_tokens : Option Nat := none
  cache_read_tokens : Option Nat := none
  cache_write_tokens : Option Nat := none
deriving DecidableEq, Repr

/-- `GeminiRawMessage`: the fields `transformMessage` reads.  `none` models an
absent (`undefined`) field. -/
structure GeminiRawMessage where
  type : Option String := none
  event : Option String := none
  session_id : Option String := none
  sessionId : Option String := none
  sessionID : Option String := none
  thread_id : Option String := none
  text : Option String := none
  message : Option StrOrObj := none
  content : Option StrOrObj := none
  delta : Option String := none
  chunk : Option String := none
  result : Option String := none
  done : Option Bool := none
  final : Option Bool := none
  finish_reason : Option String := none
  error : Option ErrField := none
  usage : Option RawUsage := none
deriving DecidableEq, Repr

/-- Normalized usage, `ParsedEvent['usage']`. -/
structure UsageOut where
  inputTokens : Nat
  outputTokens : Nat
  cacheReadTokens : Nat
  cacheCreationTokens : Nat
deriving DecidableEq, Repr

/-- The fields of `ParsedEvent` that `transformMessage` produces (`raw` is the
input message itself and is omitted). -/
structure ParsedEvent where
  type : String
  text : Option String := none
  sessionId : Option String := none
  isPartialEvt : Option Bool := none
  usage : Option UsageOut := none
deriving DecidableEq, Repr

/-- JavaScript `a || b` over optional strings: skip an absent or empty
operand, keeping the final operand as-is. -/
def jsOrOpt (a b : Option String) : Option String :=
  match a with
  | some s => if s = "" then b else some s
  | none => b

/-- `extractSessionIdFromRaw`. -/
def extractSessionIdFromRaw (msg : GeminiRawMessage) : Option String :=
  jsOrOpt msg.session_id (jsOrOpt msg.sessionId (jsOrOpt msg.sessionID msg.thread_id))

/-- `extractTextFromRaw`: the `text`/`delta`/`chunk`/`result`/`message`/
`content` cascade, returning `''` when nothing applies. -/
def extractTextFromRaw (msg : GeminiRawMessage) : String :=
  match msg.text with
  | some s => s
  | none =>
    match msg.delta with
    | some s => s
    | none =>
      match msg.chunk with
      | some s => s
      | none =>
        match msg.result with
        | some s => s
        | none =>
          match msg.message with
          | some (.str s) => s
          | some (.obj (some c)) => c
          | _ =>
            match msg.content with
            | some (.str s) => s
            | some (.obj (some t)) => t
            | _ => ""

/-- `extractUsageFromRaw`. -/
def extractUsageFromRaw (msg : GeminiRawMessage) : Option UsageOut :=
  match msg.usage with
  | none => none
  | some u =>
      some ⟨u.input_tokens.getD 0, u.output_tokens.getD 0,
        u.cache_read_tokens.getD 0, u.cache_write_tokens.getD 0⟩

/-- Truthiness of `msg.error`. -/
def errTruthy (e : Option ErrField) : Bool :=
  match e with
  | none => false
  | some (.str s) => !(s == "")
  | some (.obj _) => true

/-- `GeminiOutputParser.transformMessage`. -/
def transformMessage (msg : GeminiRawMessage) : ParsedEvent :=
  let sessionId := extractSessionIdFromRaw msg
  let eventType := jsToLower (jsOr (msg.type.getD "") (msg.event.getD ""))
  let text := extractTextFromRaw msg
  if errTruthy msg.error || (eventType == "error") then
    let errorText :=
      match msg.error with
      | some (.str s) => s
      | some (.obj m) => jsOr (m.getD "") (jsOr text "Gemini CLI error")
      | none => jsOr text "Gemini CLI error"
    { type := "error", text := some errorText, sessionId := sessionId }
  else if strIncludes eventType "init" || strIncludes eventType "start" then
    { type := "init", sessionId := sessionId }
  else
    let isFinal :=
      (msg.done == some true) || (msg.final == some true) ||
        (msg.finish_reason == some "stop") ||
        strIncludes eventType "result" || strIncludes eventType "final" ||
        strIncludes eventType "complete" || (eventType == "done")
    if !(text == "") then
      { type := if isFinal then "result" else "text"
        text := some text
        sessionId := sessionId
        isPartialEvt := some (!isFinal)
        usage := extractUsageFromRaw msg }
    else
      match extractUsageFromRaw msg with
      | some u => { type := "usage", sessionId := sessionId, usage := some u }
      | none =>
        if isFinal then
          { type := "result", sessionId := sessionId }
        else
          { type := "system", sessionId := sessionId }

end Gemini

/-! ## ADO board lane classification -/

namespace Ado

/-- The five kanban lanes (`KANBAN_LANES`). -/
inductive KanbanLane where
  | ToDo
  | Active
  | Review
  | Resolved
  | Closed
deriving DecidableEq, Repr

/-- Collapse runs of consecutive spaces into a single space. -/
def collapseSpaces : List Char → List Char
  | [] => []
  | [c] => [c]
  | c :: d :: t =>
      if c = ' ' ∧ d = ' ' then collapseSpaces (d :: t)
      else c :: collapseSpaces (d :: t)

/-- A lowercase ASCII letter or digit. -/
def isLowerAlnum (c : Char) : Bool :=
  ('a' ≤ c && c ≤ 'z') || ('0' ≤ c && c ≤ '9')

/-- `normalizeLabel`: lowercase, replace every run of non-alphanumerics with a
single space, and trim. -/
def normalizeLabel (value : String) : String :=
  String.mk (trimCL (collapseSpaces
    ((toLowerCL value.data).map fun c => if isLowerAlnum c then c else ' ')))

/-- `hasWord`: whether a space-separated word of the normalized label equals
`word`.  Splitting on a single space mirrors `split(' ')`. -/
def splitSpaces : List Char → List (List Char)
  | [] => [[]]
  | c :: t =>
      if c = ' ' then [] :: splitSpaces t
      else
        match splitSpaces t with
        | [] => [[c]]
        | w :: ws => (c :: w) :: ws

/-- `hasWord` lifted to `String`. -/
def hasWord (normalized word : String) : Bool :=
  (splitSpaces normalized.data).contains word.data

/-- `classifyLaneByName`: phrase rules over the normalized column name. -/
def classifyLaneByName (name : String) : Option KanbanLane :=
  let n := normalizeLabel name
  if n = "" then none
  else if strIncludes n "closed" || strIncludes n "complete" || (n == "done") then
    some .Closed
  else if strIncludes n "resolved" || strIncludes n "ready for qa" || strIncludes n "qa" then
    some .Resolved
  else if strIncludes n "review" || hasWord n "pr" || strIncludes n "pull request" then
    some .Review
  else if strIncludes n "active" || strIncludes n "in progress" || strIncludes n "doing" ||
      strIncludes n "develop" || strIncludes n "build" || strIncludes n "test" then
    some .Active
  else if strIncludes n "to do" || strIncludes n "todo" || strIncludes n "new" ||
      strIncludes n "backlog" then
    some .ToDo
  else none

/-- `classifyLaneByState`: total classification of a workflow state name,
defaulting to `To-Do`. -/
def classifyLaneByState (state : String) : KanbanLane :=
  let n := normalizeLabel state
  if n = "" then .ToDo
  else if strIncludes n "closed" || strIncludes n "complete" || (n == "done") then
    .Closed
  else if strIncludes n "resolved" || strIncludes n "ready for qa" || strIncludes n "qa" then
    .Resolved
  else if strIncludes n "review" || strIncludes n "pull request" || (n == "active") ||
      strIncludes n "in progress" || strIncludes n "doing" then
    (if strIncludes n "review" || strIncludes n "pull request" then .Review else .Active)
  else .ToDo

/-- `AdoBoardService.mapColumnToLane`: column name first, then each state
mapping by name, then the state fallback on the first mapping (or `''`). -/
def mapColumnToLane (columnName : String) (stateMappings : List String) : KanbanLane :=
  match classifyLaneByName columnName with
  | some lane => lane
  | none =>
    match stateMappings.findSome? classifyLaneByName with
    | some lane => lane
    | none => classifyLaneByState (stateMappings.headD "")

end Ado

/-! ## Attached-context encoding in work-item descriptions -/

namespace Attached

/-- The opening sentinel `ATTACHED_CONTEXT_START`. -/
def START_MARK : List Char := "<!-- guru-attached-context:start -->".data

/-- The closing sentinel `ATTACHED_CONTEXT_END`. -/
def END_MARK : List Char := "<!-- guru-attached-context:end -->".data

/-- `normalizeAttachedPath`: trim, slash-normalize, strip one leading `./`
and all leading `/`. -/
def normalizeAttachedPath (value : String) : String :=
  let t := replAll '\\' '/' (trimCL value.data)
  let t := if "./".data.isPrefixOf t then t.drop 2 else t
  String.mk (t.dropWhile fun c => c = '/')

/-- The loop of `dedupeAttachedPaths`, with the `seen` set as a list. -/
def dedupeGo : List String → List String → List String
  | [], _ => []
  | p :: rest, seen =>
      let n := normalizeAttachedPath p
      if n = "" ∨ seen.contains n then dedupeGo rest seen
      else n :: dedupeGo rest (n :: seen)

/-- `dedupeAttachedPaths`. -/
def dedupeAttachedPaths (paths : List String) : List String :=
  dedupeGo paths []

/-- `JSON.stringify(paths, null, '\t')` for a list of plain strings whose
characters need no JSON escaping (normalized paths contain no backslash or
quote). -/
def jsonStringifyPaths (paths : List String) : List Char :=
  match paths with
  | [] => "[]".data
  | _ =>
      '[' :: '\n' ::
        (List.intercalate [',', '\n']
          (paths.map fun p => '\t' :: '"' :: (p.data ++ ['"']))) ++ ['\n', ']']

/-- `buildDescriptionWithAttachedContext`: trimmed base description, a blank
line, and the sentinel-wrapped JSON block; no block when the normalized path
list is empty. -/
def buildDescriptionWithAttachedContext (baseDescription : String)
    (attachedContextPaths : List String) : String :=
  let normalizedPaths := dedupeAttachedPaths attachedContextPaths
  if normalizedPaths = [] then String.mk (trimCL baseDescription.data)
  else
    let metadataBlock :=
      START_MARK ++ '\n' :: jsonStringifyPaths normalizedPaths ++ '\n' :: END_MARK
    let base := trimCL baseDescription.data
    String.mk (if base = [] then metadataBlock else base ++ '\n' :: '\n' :: metadataBlock)

/-- Skip JSON whitespace. -/
def skipWs (l : List Char) : List Char :=
  l.dropWhile Char.isWhitespace

/-- Split a character list at the next `"`; `none` when the quote never
closes. -/
def splitAtQuote : List Char → Option (List Char × List Char)
  | [] => none
  | '"' :: t => some ([], t)
  | c :: t => (splitAtQuote t).map fun p => (c :: p.1, p.2)

/-- Item loop of the JSON string-array parser (fuel-indexed). -/
def parseItemsGo : Nat → List Char → List String → Option (List String)
  | 0, _, _ => none
  | fuel + 1, l, acc =>
      match skipWs l with
      | ']' :: rest => if skipWs rest = [] then some acc.reverse else none
      | '"' :: rest =>
          match splitAtQuote rest with
          | none => none
          | some (s, rest2) =>
              match skipWs rest2 with
              | ',' :: r3 => parseItemsGo fuel r3 (String.mk s :: acc)
              | ']' :: r3 => if skipWs r3 = [] then some (String.mk s :: acc).reverse else none
              | _ => none
      | _ => none

/-- Modelled from the spec and the call site: `JSON.parse` restricted to the
shape this code produces and consumes — a JSON array of plain (escape-free)
strings.  `none` models a thrown parse error (any other input shape), which
sends the caller to its line-splitting fallback. -/
def parseJsonStrings (l : List Char) : Option (List String) :=
  match skipWs l with
  | '[' :: rest => parseItemsGo (rest.length + 1) rest []
  | _ => none

/-- The `metadataRaw.split('\n')` fallback: strip a leading run of dashes and
following whitespace, trim, drop empties. -/
def fallbackLines (l : List Char) : List String :=
  ((l.splitOn '\n').map fun line =>
      let line := if line.head? = some '-' then
          (line.dropWhile fun c => c = '-').dropWhile Char.isWhitespace
        else line
      String.mk (trimCL line)).filter fun s => s ≠ ""

/-- `parseAttachedContextFromDescription`: locate the sentinel block, parse
its JSON (or fall back to line splitting), and splice the block out of the
visible description. -/
def parseAttachedContextFromDescription (rawDescription : String) :
    String × List String :=
  let d := rawDescription.data
  match findIdx? d START_MARK, findIdx? d END_MARK with
  | some startIndex, some endIndex =>
      if endIndex ≤ startIndex then (rawDescription, [])
      else
        let metadataStart := startIndex + START_MARK.length
        let metadataRaw := trimCL ((d.drop metadataStart).take (endIndex - metadataStart))
        let parsedPaths :=
          match parseJsonStrings metadataRaw with
          | some parsed => (parsed.map jsTrim).filter fun s => s ≠ ""
          | none => fallbackLines metadataRaw
        let cleanDescription :=
          trimCL (trimCL (d.take startIndex) ++
            '\n' :: trimCL (d.drop (endIndex + END_MARK.length)))
        (String.mk cleanDescription, dedupeAttachedPaths parsedPaths)
  | _, _ => (rawDescription, [])

end Attached

/-! ## Helper lemmas -/

theorem lookup_append (k : String) (l₁ l₂ : List (String × String)) :
    (l₁ ++ l₂).lookup k = (l₁.lookup k).or (l₂.lookup k) := by
  induction l₁ with
  | nil => simp [List.lookup]
  | cons a t ih =>
      rcases a with ⟨ak, av⟩
      simp only [List.cons_append, List.lookup]
      cases hba : k == ak <;> simp [ih]

theorem lookup_setLock (l : List (String × String)) (k v : String) :
    (Signal.setLock l k v).lookup k = some v := by
  unfold Signal.setLock
  by_cases h : (l.lookup k).isSome
  · rw [if_pos h]
    induction l with
    | nil => simp [List.lookup] at h
    | cons a t ih =>
        rcases a with ⟨ak, av⟩
        by_cases ha : ak = k
        · subst ha
          rw [List.map_cons]
          dsimp only
          rw [if_pos rfl]
          simp [List.lookup]
        · have hk : (k == ak) = false := beq_eq_false_iff_ne.mpr fun hkk => ha hkk.symm
          have h2 : (List.lookup k t).isSome = true := by
            simpa [List.lookup, hk] using h
          rw [List.map_cons]
          dsimp only
          rw [if_neg ha]
          simp only [List.lookup, hk]
          exact ih h2
  · rw [if_neg h, lookup_append]
    rw [Option.not_isSome_iff_eq_none] at h
    simp [h, List.lookup]

theorem lookup_filter_ne (k : String) (l : List (String × String)) :
    (l.filter fun p => p.1 ≠ k).lookup k = none := by
  induction l with
  | nil => simp [List.lookup]
  | cons a t ih =>
      rcases a with ⟨ak, av⟩
      by_cases ha : ak = k
      · subst ha
        have hc : (decide (((ak, av) : String × String).1 ≠ ak)) = false := by simp
        rw [List.filter_cons, hc]
        simpa using ih
      · have hk : (k == ak) = false := beq_eq_false_iff_ne.mpr fun hkk => ha hkk.symm
        have hc : (decide (((ak, av) : String × String).1 ≠ k)) = true := by simp [ha]
        rw [List.filter_cons, hc]
        have ht : (true = true) := rfl
        rw [if_pos ht]
        simp only [List.lookup, hk]
        exact ih

theorem jsTrim_empty_normalize {f : String} (h : jsTrim f = "") :
    Signal.normalizeFilePath f = "" := by
  have hd : trimCL f.data = [] := congrArg String.data h
  unfold Signal.normalizeFilePath
  rw [hd]
  rfl

/-- `dropWhile` is idempotent. -/
theorem dropWhile_dropWhile (p : Char → Bool) (l : List Char) :
    List.dropWhile p (List.dropWhile p l) = List.dropWhile p l := by
  induction l with
  | nil => rfl
  | cons c t ih =>
      by_cases pc : p c = true
      · rw [List.dropWhile_cons, if_pos pc, ih]
      · rw [List.dropWhile_cons, if_neg pc, List.dropWhile_cons, if_neg pc]

/-- The head surviving a `dropWhile` fails the predicate. -/
theorem dropWhile_head_false {p : Char → Bool} :
    ∀ {l c t}, List.dropWhile p l = c :: t → p c = false := by
  intro l
  induction l with
  | nil => intro c t h; exact absurd h (by simp)
  | cons x xs ih =>
      intro c t h
      by_cases px : p x = true
      · rw [List.dropWhile_cons, if_pos px] at h
        exact ih h
      · rw [List.dropWhile_cons, if_neg px] at h
        cases h
        simpa using px

/-- Appending only whitespace does not change the trimmed value. -/
theorem trim_append_ws (l w : List Char)
    (hw : ∀ c ∈ w, Char.isWhitespace c = true) :
    trimCL (l ++ w) = trimCL l := by
  unfold trimCL
  rw [List.dropWhile_append]
  by_cases hl : (l.dropWhile Char.isWhitespace).isEmpty
  · rw [if_pos hl]
    have hl2 : l.dropWhile Char.isWhitespace = [] := by
      simpa [List.isEmpty_iff] using hl
    have hw2 : w.dropWhile Char.isWhitespace = [] :=
      List.dropWhile_eq_nil_iff.mpr fun x hx => hw x hx
    rw [hl2, hw2]
  · rw [if_neg hl]
    rw [List.reverse_append, List.dropWhile_append]
    have hw3 : ((w.reverse.dropWhile Char.isWhitespace).isEmpty) = true := by
      have : w.reverse.dropWhile Char.isWhitespace = [] :=
        List.dropWhile_eq_nil_iff.mpr fun x hx => hw x (List.mem_reverse.mp hx)
      simp [this]
    rw [if_pos hw3]

/-- `trim` is idempotent. -/
theorem trim_idem (l : List Char) : trimCL (trimCL l) = trimCL l := by
  unfold trimCL
  set dl := l.dropWhile Char.isWhitespace with hdl
  set u := dl.reverse.dropWhile Char.isWhitespace with hu
  have hfix1 : List.dropWhile Char.isWhitespace u.reverse = u.reverse := by
    cases hy : u.reverse with
    | nil => rfl
    | cons c t =>
        have hpre : u.reverse <+: dl := by
          have hsuf : u <:+ dl.reverse := by rw [hu]; exact List.dropWhile_suffix _
          exact (@List.reverse_suffix _ u.reverse dl).mp
            (by rw [List.reverse_reverse]; exact hsuf)
        obtain ⟨r, hr⟩ := hpre
        rw [hy] at hr
        have hc : Char.isWhitespace c = false := by
          have hdw : List.dropWhile Char.isWhitespace l = c :: (t ++ r) := by
            rw [← hdl]
            exact hr.symm
          exact dropWhile_head_false hdw
        rw [List.dropWhile_cons, if_neg (by simp [hc])]
  have hfix2 : List.dropWhile Char.isWhitespace u = u := by
    rw [hu]
    exact dropWhile_dropWhile _ _
  rw [hfix1, List.reverse_reverse, hfix2]

/-- The trimmed value occurs inside the original list. -/
theorem trim_occurs (l : List Char) : trimCL l <:+: l := by
  have h1 : l.dropWhile Char.isWhitespace <:+ l := List.dropWhile_suffix _
  have h2 : (l.dropWhile Char.isWhitespace).reverse.dropWhile Char.isWhitespace <:+
      (l.dropWhile Char.isWhitespace).reverse := List.dropWhile_suffix _
  have h3 : trimCL l <+: l.dropWhile Char.isWhitespace := by
    unfold trimCL
    exact (@List.reverse_suffix _
      (((l.dropWhile Char.isWhitespace).reverse.dropWhile Char.isWhitespace).reverse)
      (l.dropWhile Char.isWhitespace)).mp
      (by rw [List.reverse_reverse]; exact h2)
  exact h3.isInfix.trans h1.isInfix

/-- A newline-free pattern that is a prefix of `a ++ '\n' :: c` is already a
prefix of `a`. -/
theorem prefix_through_newline :
    ∀ (pat a c : List Char), '\n' ∉ pat → pat <+: (a ++ '\n' :: c) → pat <+: a := by
  intro pat
  induction pat with
  | nil => intro a c _ _; exact List.nil_prefix
  | cons p pr ih =>
      intro a c hnl hp
      cases a with
      | nil =>
          rw [List.nil_append] at hp
          rw [List.cons_prefix_cons] at hp
          exact absurd (hp.1 ▸ List.mem_cons_self p pr) hnl
      | cons x a2 =>
          rw [List.cons_append, List.cons_prefix_cons] at hp
          rw [List.cons_prefix_cons]
          exact ⟨hp.1, ih a2 c (fun hm => hnl (List.mem_cons_of_mem p hm)) hp.2⟩

/-- First-occurrence position of a nonempty newline-free pattern in
`a ++ "\n\n" ++ c` when the pattern does not occur in `a` at all: it is the
position of its first occurrence in `c`, shifted past `a` and the blank
line. -/
theorem findIdx_nn (pat : List Char) (hne : pat ≠ []) (hnl : '\n' ∉ pat) :
    ∀ (a c : List Char) (k : Nat), ¬ pat <:+: a → findIdx? c pat = some k →
    findIdx? (a ++ '\n' :: '\n' :: c) pat = some (a.length + 2 + k) := by
  intro a
  induction a with
  | nil =>
      intro c k _ hc
      have hnp1 : ¬ pat <+: ('\n' :: '\n' :: c) := by
        intro hp
        cases pat with
        | nil => exact hne rfl
        | cons p pr =>
            rw [List.cons_prefix_cons] at hp
            exact hnl (hp.1 ▸ List.mem_cons_self p pr)
      have hnp2 : ¬ pat <+: ('\n' :: c) := by
        intro hp
        cases pat with
        | nil => exact hne rfl
        | cons p pr =>
            rw [List.cons_prefix_cons] at hp
            exact hnl (hp.1 ▸ List.mem_cons_self p pr)
      have hb1 : pat.isPrefixOf ('\n' :: '\n' :: c) = false :=
        Bool.eq_false_iff.mpr fun h => hnp1 (List.isPrefixOf_iff_prefix.mp h)
      have hb2 : pat.isPrefixOf ('\n' :: c) = false :=
        Bool.eq_false_iff.mpr fun h => hnp2 (List.isPrefixOf_iff_prefix.mp h)
      rw [List.nil_append, findIdx?.eq_def, hb1]
      simp only [Bool.false_eq_true, if_false]
      show (findIdx? ('\n' :: c) pat).map (· + 1) = some (([] : List Char).length + 2 + k)
      rw [findIdx?.eq_def, hb2]
      simp only [Bool.false_eq_true, if_false]
      show ((findIdx? c pat).map (· + 1)).map (· + 1) = some (([] : List Char).length + 2 + k)
      rw [hc]
      simp only [Option.map, List.length_nil]
      rw [Option.some_inj]
      omega
  | cons x a2 ih =>
      intro c k hni hc
      have hni2 : ¬ pat <:+: a2 := fun h => hni (List.infix_cons h)
      have hnp : ¬ pat <+: (x :: a2 ++ '\n' :: '\n' :: c) := by
        intro hp
        have hpa : pat <+: (x :: a2) := by
          have : pat <+: ((x :: a2) ++ '\n' :: ('\n' :: c)) := hp
          exact prefix_through_newline pat (x :: a2) ('\n' :: c) hnl this
        exact hni hpa.isInfix
      have hb : pat.isPrefixOf (x :: a2 ++ '\n' :: '\n' :: c) = false :=
        Bool.eq_false_iff.mpr fun h => hnp (List.isPrefixOf_iff_prefix.mp h)
      rw [findIdx?.eq_def, hb]
      simp only [Bool.false_eq_true, if_false]
      rw [List.cons_append]
      show (findIdx? (a2 ++ '\n' :: '\n' :: c) pat).map (· + 1) =
        some ((x :: a2).length + 2 + k)
      rw [ih c k hni2 hc]
      simp only [Option.map, List.length_cons]
      rw [Option.some_inj]
      omega

/-! ## Claims -/

/-- C1: for distinct (trimmed-nonempty) agent ids `A`, `B` and a path `f`
with nonempty normalization, starting from any state where `f` is unlocked:
`acquireLock(A, f)` returns `true` and records `A` as owner; a subsequent
`acquireLock(B, f)` returns `false` and leaves the state unchanged;
`releaseLock(B, f)` by the non-owner returns `false` and leaves the lock held
by `A`; `releaseLock(A, f)` returns `true`, removes the entry, and makes `f`
immediately acquirable by `B`. -/
theorem C1_lock_exclusivity (A B f : String) (s : Signal.SignalState)
    (hA : jsTrim A ≠ "") (hB : jsTrim B ≠ "") (hAB : jsTrim A ≠ jsTrim B)
    (hf : Signal.normalizeFilePath f ≠ "")
    (hun : s.locks.lookup (Signal.normalizeFilePath f) = none) :
    Signal.LockExclusivity A B f s := by
  have hcondA : ¬(jsTrim A = "" ∨ Signal.normalizeFilePath f = "") := by
    rintro (h | h) <;> [exact hA h; exact hf h]
  have hcondB : ¬(jsTrim B = "" ∨ Signal.normalizeFilePath f = "") := by
    rintro (h | h) <;> [exact hB h; exact hf h]
  have l1 : (Signal.setLock s.locks (Signal.normalizeFilePath f) (jsTrim A)).lookup
      (Signal.normalizeFilePath f) = some (jsTrim A) := lookup_setLock _ _ _
  have l4 : ((Signal.setLock s.locks (Signal.normalizeFilePath f) (jsTrim A)).filter
      fun p => p.1 ≠ Signal.normalizeFilePath f).lookup (Signal.normalizeFilePath f) = none :=
    lookup_filter_ne _ _
  have l5 : (Signal.setLock
      ((Signal.setLock s.locks (Signal.normalizeFilePath f) (jsTrim A)).filter
        fun p => p.1 ≠ Signal.normalizeFilePath f)
      (Signal.normalizeFilePath f) (jsTrim B)).lookup (Signal.normalizeFilePath f) =
      some (jsTrim B) := lookup_setLock _ _ _
  have e1 : Signal.acquireLock A f s =
      ⟨true, ⟨Signal.setLock s.locks (Signal.normalizeFilePath f) (jsTrim A),
        s.announcements⟩, true⟩ := by
    unfold Signal.acquireLock
    rw [if_neg hcondA, hun]
  have e2 : Signal.acquireLock B f
      ⟨Signal.setLock s.locks (Signal.normalizeFilePath f) (jsTrim A), s.announcements⟩ =
      ⟨false, ⟨Signal.setLock s.locks (Signal.normalizeFilePath f) (jsTrim A),
        s.announcements⟩, false⟩ := by
    unfold Signal.acquireLock
    rw [if_neg hcondB]
    dsimp only
    rw [l1]
    dsimp only
    rw [if_pos ⟨hA, hAB⟩]
  have e3 : Signal.releaseLock B f
      ⟨Signal.setLock s.locks (Signal.normalizeFilePath f) (jsTrim A), s.announcements⟩ =
      ⟨false, ⟨Signal.setLock s.locks (Signal.normalizeFilePath f) (jsTrim A),
        s.announcements⟩, false⟩ := by
    unfold Signal.releaseLock
    rw [if_neg hcondB]
    dsimp only
    rw [l1]
    dsimp only
    rw [if_neg hAB]
  have e4 : Signal.releaseLock A f
      ⟨Signal.setLock s.locks (Signal.normalizeFilePath f) (jsTrim A), s.announcements⟩ =
      ⟨true, ⟨(Signal.setLock s.locks (Signal.normalizeFilePath f) (jsTrim A)).filter
        (fun p => p.1 ≠ Signal.normalizeFilePath f), s.announcements⟩, true⟩ := by
    unfold Signal.releaseLock
    rw [if_neg hcondA]
    dsimp only
    rw [l1]
    dsimp only
    rw [if_pos rfl]
  have e5 : Signal.acquireLock B f
      ⟨(Signal.setLock s.locks (Signal.normalizeFilePath f) (jsTrim A)).filter
        (fun p => p.1 ≠ Signal.normalizeFilePath f), s.announcements⟩ =
      ⟨true, ⟨Signal.setLock
        ((Signal.setLock s.locks (Signal.normalizeFilePath f) (jsTrim A)).filter
          fun p => p.1 ≠ Signal.normalizeFilePath f)
        (Signal.normalizeFilePath f) (jsTrim B), s.announcements⟩, true⟩ := by
    unfold Signal.acquireLock
    rw [if_neg hcondB]
    dsimp only
    rw [l4]
  unfold Signal.LockExclusivity
  rw [e1]
  dsimp only
  rw [e2, e3, e4]
  dsimp only
  rw [e5]
  dsimp only
  exact ⟨rfl, l1, rfl, rfl, rfl, rfl, rfl, rfl, rfl, l4, rfl, l5⟩

/-- C1 witness: the scenario at `A := "A"`, `B := "B"`, `f := "f"` on the
empty state. -/
theorem C1_lock_exclusivity_witness :
    Signal.LockExclusivity "A" "B" "f" Signal.emptyState :=
  C1_lock_exclusivity "A" "B" "f" Signal.emptyState
    (by decide) (by decide) (by decide) (by decide) rfl

/-- C10: when either the agent id or the file path trims to the empty string,
`acquireLock` and `releaseLock` return `false`, leave the state (locks and
announcements) unchanged, and emit no `updated` event. -/
theorem C10_blank_lock_inputs (agentId filePath : String) (s : Signal.SignalState)
    (h : jsTrim agentId = "" ∨ jsTrim filePath = "") :
    Signal.acquireLock agentId filePath s = ⟨false, s, false⟩ ∧
    Signal.releaseLock agentId filePath s = ⟨false, s, false⟩ := by
  have hcond : jsTrim agentId = "" ∨ Signal.normalizeFilePath filePath = "" := by
    rcases h with h | h
    · exact Or.inl h
    · exact Or.inr (jsTrim_empty_normalize h)
  constructor
  · unfold Signal.acquireLock
    rw [if_pos hcond]
  · unfold Signal.releaseLock
    rw [if_pos hcond]

/-- C10 witness: blank agent id against a nonempty path, on the empty
state. -/
theorem C10_blank_lock_inputs_witness :
    Signal.acquireLock "  " "f" Signal.emptyState = ⟨false, Signal.emptyState, false⟩ ∧
    Signal.releaseLock "  " "f" Signal.emptyState = ⟨false, Signal.emptyState, false⟩ :=
  C10_blank_lock_inputs "  " "f" Signal.emptyState (Or.inl (by decide))

/-- C3: with the risk level left at `Medium`, an exit report infers `High`
for 12 or more touched files, `Low` for at most 2 files none of which is
sensitive, `High` whenever any touched path matches the sensitive-path
pattern (e.g. `src/auth/login.ts`, regardless of file count), and `Medium`
in every other case; a risk level supplied as other than `Medium` is never
re-inferred. -/
theorem C3_risk_inference :
    (∀ fs : List String, 12 ≤ fs.length → Worker.inferRiskLevel fs = .High) ∧
    (∀ fs : List String, fs.length ≤ 2 → (∀ f ∈ fs, Worker.sensitivePath f = false) →
      Worker.inferRiskLevel fs = .Low) ∧
    (∀ (fs : List String) (f : String), f ∈ fs → Worker.sensitivePath f = true →
      Worker.inferRiskLevel fs = .High) ∧
    Worker.inferRiskLevel ["src/auth/login.ts"] = .High ∧
    (∀ fs : List String, 3 ≤ fs.length → fs.length ≤ 11 →
      (∀ f ∈ fs, Worker.sensitivePath f = false) → Worker.inferRiskLevel fs = .Medium) ∧
    (∀ (r : Worker.ExitRiskLevel) (fs : List String), r ≠ .Medium →
      Worker.exitReportRisk r fs = r) ∧
    (∀ fs : List String, Worker.exitReportRisk .Medium fs = Worker.inferRiskLevel fs) := by
  refine ⟨?_, ?_, ?_, by decide, ?_, ?_, ?_⟩
  · intro fs h
    simp [Worker.inferRiskLevel, h]
  · intro fs h2 hns
    have h12 : ¬(12 ≤ fs.length) := by omega
    have hany : fs.any Worker.sensitivePath = false := by
      rw [List.any_eq_false]
      intro f hfm
      simp [hns f hfm]
    simp [Worker.inferRiskLevel, h12, hany, h2]
  · intro fs f hfm hsf
    by_cases h12 : 12 ≤ fs.length
    · simp [Worker.inferRiskLevel, h12]
    · have hany : fs.any Worker.sensitivePath = true :=
        List.any_eq_true.mpr ⟨f, hfm, hsf⟩
      simp [Worker.inferRiskLevel, h12, hany]
  · intro fs h3 h11 hns
    have h12 : ¬(12 ≤ fs.length) := by omega
    have h2 : ¬(fs.length ≤ 2) := by omega
    have hany : fs.any Worker.sensitivePath = false := by
      rw [List.any_eq_false]
      intro f hfm
      simp [hns f hfm]
    simp [Worker.inferRiskLevel, h12, hany, h2]
  · intro r fs hr
    simp [Worker.exitReportRisk, hr]
  · intro fs
    simp [Worker.exitReportRisk]

/-- C3 witness: the three concrete scenarios from the spec (13 files, 2
non-sensitive files, a single sensitive file) plus a non-`Medium` supplied
level. -/
theorem C3_risk_inference_witness :
    Worker.inferRiskLevel (List.replicate 13 "src/a.ts") = .High ∧
    Worker.inferRiskLevel ["src/a.ts", "src/b.ts"] = .Low ∧
    Worker.inferRiskLevel ["src/auth/login.ts"] = .High ∧
    Worker.inferRiskLevel ["src/a.ts", "src/b.ts", "src/c.ts"] = .Medium ∧
    Worker.exitReportRisk .Low (List.replicate 13 "src/a.ts") = .Low := by
  refine ⟨C3_risk_inference.1 _ (by decide), ?_, C3_risk_inference.2.2.2.1, ?_, ?_⟩
  · exact C3_risk_inference.2.1 _ (by decide) (by decide)
  · exact C3_risk_inference.2.2.2.2.1 _ (by decide) (by decide) (by decide)
  · exact C3_risk_inference.2.2.2.2.2.1 .Low _ (by decide)

/-- C2: when the reference image exists and the vision critic reports a
mismatch on every attempt, `verifyUi` performs exactly 3 capture+critic
cycles and exactly 2 correction cycles (none after the final failed attempt)
and returns an unverified result with `attempts = 3` and the last critic
feedback attached. -/
theorem C2_visual_qa_budget (critic : Nat → Bool × String)
    (h : ∀ i, (critic i).1 = false) :
    Worker.verifyUi true critic =
      ⟨⟨false, 3, some (critic 3).2⟩, 3, 3, 2,
        "Visual QA failed after 3 attempts." ++
          (if (critic 3).2 ≠ "" then " Remaining feedback: " ++ (critic 3).2 else "")⟩ := by
  cases hc1 : critic 1 with
  | mk m1 f1 =>
  cases hc2 : critic 2 with
  | mk m2 f2 =>
  cases hc3 : critic 3 with
  | mk m3 f3 =>
  have h1 : m1 = false := by have := h 1; rw [hc1] at this; exact this
  have h2 : m2 = false := by have := h 2; rw [hc2] at this; exact this
  have h3 : m3 = false := by have := h 3; rw [hc3] at this; exact this
  subst h1 h2 h3
  show Worker.verifyUiGo critic 3 1 "" 0 0 0 = _
  rw [show (3 : Nat) = 2 + 1 from rfl]
  rw [Worker.verifyUiGo]
  rw [hc1]
  simp only [Worker.MAX_RETIRES]
  norm_num
  rw [Worker.verifyUiGo]
  rw [hc2]
  norm_num
  rw [Worker.verifyUiGo]
  rw [hc3]
  simp only [Worker.MAX_RETIRES]
  norm_num
  have hr : Nat.repr 3 = "3" := rfl
  rw [hr]
  have hs : "Visual QA failed after " ++ "3" ++ " attempts." =
      "Visual QA failed after 3 attempts." := by decide
  rw [hs]

/-- C2 witness: a critic that always answers a mismatch with feedback
`"nope"`. -/
theorem C2_visual_qa_budget_witness :
    Worker.verifyUi true (fun _ => (false, "nope")) =
      ⟨⟨false, 3, some "nope"⟩, 3, 3, 2,
        "Visual QA failed after 3 attempts. Remaining feedback: nope"⟩ := by
  have h := C2_visual_qa_budget (fun _ => (false, "nope")) (fun _ => rfl)
  exact h.trans (by decide)

/-- C5: column-to-lane classification is total (every input yields one of the
five lanes) and each lane is reachable both from a column name and from a
fallback workflow-state string; `"Closed"` classifies to `Closed` with no
state mappings, `"WIP"` with state mapping `"In Progress"` classifies to
`Active` via the state fallback, and an unrecognizable column/state pair
defaults to `To-Do`. -/
theorem C5_lane_classification :
    (∀ lane : Ado.KanbanLane, ∃ col : String, Ado.mapColumnToLane col [] = lane) ∧
    (∀ lane : Ado.KanbanLane, ∃ st : String, Ado.mapColumnToLane "zzz" [st] = lane) ∧
    Ado.mapColumnToLane "Closed" [] = .Closed ∧
    Ado.mapColumnToLane "WIP" ["In Progress"] = .Active ∧
    Ado.mapColumnToLane "zzz" ["frobnicate"] = .ToDo ∧
    (∀ (col : String) (states : List String),
      Ado.mapColumnToLane col states ∈
        [Ado.KanbanLane.ToDo, .Active, .Review, .Resolved, .Closed]) := by
  refine ⟨?_, ?_, by decide, by decide, by decide, ?_⟩
  · intro lane
    cases lane with
    | ToDo => exact ⟨"New", by decide⟩
    | Active => exact ⟨"Doing", by decide⟩
    | Review => exact ⟨"Code Review", by decide⟩
    | Resolved => exact ⟨"Ready for QA", by decide⟩
    | Closed => exact ⟨"Closed", by decide⟩
  · intro lane
    cases lane with
    | ToDo => exact ⟨"Backlog", by decide⟩
    | Active => exact ⟨"Doing", by decide⟩
    | Review => exact ⟨"PR", by decide⟩
    | Resolved => exact ⟨"Resolved", by decide⟩
    | Closed => exact ⟨"Done", by decide⟩
  · intro col states
    cases h : Ado.mapColumnToLane col states <;> simp

/-- C6: finality, not the presence of text, decides the emitted event type:
`{type:"result", done:true}` with no text parses to an empty `result` event
(not `system`), and `{delta:"hi"}` with no finality markers parses to a
partial `text` event. -/
theorem C6_parser_finality :
    Gemini.transformMessage { type := some "result", done := some true } =
      { type := "result" } ∧
    Gemini.transformMessage { delta := some "hi" } =
      { type := "text", text := some "hi", isPartialEvt := some true } := by
  constructor <;> decide

/-- `List.find?` returns the first element satisfying the predicate when all
earlier elements fail it. -/
theorem find_append_skip {α : Type} (p : α → Bool) (pre : List α) (x : α) (post : List α)
    (hx : p x = true) (hpre : ∀ t ∈ pre, p t = false) :
    List.find? p (pre ++ x :: post) = some x := by
  induction pre with
  | nil => simp [List.find?_cons, hx]
  | cons t ts ih =>
      have ht := hpre t (by simp)
      rw [List.cons_append, List.find?_cons, ht]
      exact ih fun u hu => hpre u (by simp [hu])

/-- C8: `executeSprintPlan` assigns every planned package the worker type
routed from the concatenation of all its tasks' tags; the routing rule never
yields a falsy agent type (it is always `gemini-cli` or `codex`), so the
session fallback is reached only in the impossible falsy case; and
`findWorkerType` itself is the tool type of the first non-terminal session,
defaulting to the strict-logic type `codex`. -/
theorem C8_worker_type_routing :
    (∀ (plan : List Orch.SprintPlanPackage) (sessions : List Orch.ExistingSession),
      (Orch.executeSprintPlan plan sessions).map (fun w => w.workerType) =
        plan.map fun pkg => TaskRouting.routeAgentForTags (pkg.tasks.flatMap fun t => t.tags)) ∧
    (∀ tags : List String, TaskRouting.routeAgentForTags tags = "gemini-cli" ∨
      TaskRouting.routeAgentForTags tags = "codex") ∧
    (∀ sessions : List Orch.ExistingSession,
      (∀ s ∈ sessions, ¬(s.toolType ≠ "" ∧ s.toolType ≠ "terminal")) →
      Orch.findWorkerType sessions = "codex") ∧
    (∀ (pre : List Orch.ExistingSession) (s : Orch.ExistingSession)
      (post : List Orch.ExistingSession),
      s.toolType ≠ "" → s.toolType ≠ "terminal" →
      (∀ t ∈ pre, ¬(t.toolType ≠ "" ∧ t.toolType ≠ "terminal")) →
      Orch.findWorkerType (pre ++ s :: post) = s.toolType) := by
  refine ⟨?_, ?_, ?_, ?_⟩
  · intro plan sessions
    unfold Orch.executeSprintPlan
    rw [List.map_map]
    apply List.map_congr_left
    intro pkg _
    dsimp only [Function.comp]
    unfold jsOr TaskRouting.routeAgentForTags
    cases hc : (TaskRouting.hasUiTag (pkg.tasks.flatMap fun t => t.tags) &&
        !TaskRouting.hasLogicTag (pkg.tasks.flatMap fun t => t.tags)) <;> simp [hc]
  · intro tags
    unfold TaskRouting.routeAgentForTags
    cases hc : (TaskRouting.hasUiTag tags && !TaskRouting.hasLogicTag tags) <;> simp [hc]
  · intro sessions hall
    have hn : sessions.find?
        (fun s => !(s.toolType == "") && !(s.toolType == "terminal")) = none := by
      rw [List.find?_eq_none]
      intro x hx
      simpa using hall x hx
    simp [Orch.findWorkerType, hn]
  · intro pre s post hne hnt hall
    have hfind := find_append_skip
      (fun x : Orch.ExistingSession => !(x.toolType == "") && !(x.toolType == "terminal"))
      pre s post (by simp [hne, hnt])
      (fun t ht => by
        have h := hall t ht
        rcases Classical.em (t.toolType = "") with h1 | h1
        · simp [h1]
        · rcases Classical.em (t.toolType = "terminal") with h2 | h2
          · simp [h2]
          · exact absurd ⟨h1, h2⟩ h)
    simp [Orch.findWorkerType, hfind, jsOr, hne]

/-- C8 witness: a single package tagged `ui` routes to `gemini-cli`
regardless of sessions; with no sessions the fallback is `codex`; with one
idle `gemini-cli` session the fallback is that session's type. -/
theorem C8_worker_type_routing_witness :
    (Orch.executeSprintPlan [⟨"k", "n", "p", "dev", [⟨1, "t", ["ui"]⟩]⟩] []).map
      (fun w => w.workerType) = ["gemini-cli"] ∧
    Orch.findWorkerType [] = "codex" ∧
    Orch.findWorkerType [⟨"s1", "", "idle", "gemini-cli", "/p", "/p", "w"⟩] = "gemini-cli" := by
  refine ⟨?_, ?_, ?_⟩
  · exact (C8_worker_type_routing.1 [⟨"k", "n", "p", "dev", [⟨1, "t", ["ui"]⟩]⟩] []).trans
      (by decide)
  · exact C8_worker_type_routing.2.2.1 [] (by simp)
  · exact C8_worker_type_routing.2.2.2 [] ⟨"s1", "", "idle", "gemini-cli", "/p", "/p", "w"⟩ []
      (by decide) (by decide) (by simp)

/-- C7: `resolveTaskProfile` returns `UI` exactly when a trimmed,
case-insensitive `ui` tag is present without a `logic` tag and `Logic`
otherwise (including `[]` and `["ui","logic"]`); `mergeProfileTag` removes
every existing ui/logic tag, preserves unrelated tags in order, and appends
the new profile at the end. -/
theorem C7_task_profile :
    (∀ tags : List String, TaskRouting.resolveTaskProfile tags = .UI ↔
      (TaskRouting.hasUiTag tags = true ∧ TaskRouting.hasLogicTag tags = false)) ∧
    TaskRouting.resolveTaskProfile ["ui"] = .UI ∧
    TaskRouting.resolveTaskProfile ["ui", "logic"] = .Logic ∧
    TaskRouting.resolveTaskProfile [] = .Logic ∧
    TaskRouting.mergeProfileTag ["foo", "ui"] .Logic = ["foo", "Logic"] ∧
    (∀ (tags : List String) (p : TaskRouting.TaskProfile),
      TaskRouting.mergeProfileTag tags p =
        (tags.filter fun t => ¬(TaskRouting.normalizeTag t = "ui" ∨
          TaskRouting.normalizeTag t = "logic")) ++ [TaskRouting.profileTag p]) := by
  refine ⟨?_, by decide, by decide, by decide, by decide, ?_⟩
  · intro tags
    cases hU : TaskRouting.hasUiTag tags <;>
      cases hL : TaskRouting.hasLogicTag tags <;>
        simp [TaskRouting.resolveTaskProfile, hU, hL]
  · intro tags p
    unfold TaskRouting.mergeProfileTag
    congr 1
    apply List.filter_congr
    intro t _
    cases h1 : TaskRouting.normalizeTag t == "ui" <;>
      cases h2 : TaskRouting.normalizeTag t == "logic" <;>
        simp_all

/-- Keeping the most recent 200 entries commutes with later appends: trimming
before appending and trimming once at the end agree. -/
theorem drop200_append (v w : List Signal.SignalAnnouncement) :
    ((v.drop (v.length - 200)) ++ w).drop (((v.drop (v.length - 200)) ++ w).length - 200)
      = (v ++ w).drop ((v ++ w).length - 200) := by
  rcases le_or_lt v.length 200 with h | h
  · have h0 : v.length - 200 = 0 := by omega
    rw [h0, List.drop_zero]
  · have hk : v.length - 200 ≤ v.length := by omega
    have hlen : (v.drop (v.length - 200)).length = 200 := by
      rw [List.length_drop]; omega
    rw [List.length_append, hlen, List.length_append]
    have h1 : 200 + w.length - 200 = w.length := by omega
    have h2 : v.length + w.length - 200 = (v.length - 200) + w.length := by omega
    rw [h1, h2, ← List.drop_drop, List.drop_append_of_le_length hk]

/-- Any broadcast sequence preserves the 200-entry bound. -/
theorem broadcastMany_le (ms : List Signal.BroadcastMsg) :
    ∀ s : Signal.SignalState, s.announcements.length ≤ 200 →
    (Signal.broadcastMany ms s).announcements.length ≤ 200 := by
  induction ms with
  | nil => intro s h; exact h
  | cons m rest ih =>
      intro s h
      unfold Signal.broadcastMany
      rw [List.foldl_cons]
      apply ih
      unfold Signal.broadcast
      by_cases hc : jsTrim m.1 = "" ∨ jsTrim m.2.1 = ""
      · rw [if_pos hc]; exact h
      · rw [if_neg hc]
        dsimp only
        rw [List.length_drop]
        simp only [Signal.MAX_ANNOUNCEMENTS]
        omega

/-- A valid broadcast sequence leaves exactly the most recent 200 of the old
and new announcements, in insertion order. -/
theorem broadcastMany_eq (ms : List Signal.BroadcastMsg) :
    ∀ s : Signal.SignalState, (∀ m ∈ ms, Signal.ValidMsg m) →
    s.announcements.length ≤ 200 →
    (Signal.broadcastMany ms s).announcements =
      (s.announcements ++ ms.map Signal.mkAnn).drop
        ((s.announcements ++ ms.map Signal.mkAnn).length - 200) := by
  induction ms with
  | nil =>
      intro s _ hlen
      have h0 : (s.announcements ++ (List.map Signal.mkAnn [])).length - 200 = 0 := by
        simp; omega
      rw [h0, List.drop_zero]
      simp [Signal.broadcastMany]
  | cons m rest ih =>
      intro s hv hlen
      have hvm := hv m (by simp)
      have hstep : Signal.broadcastMany (m :: rest) s = Signal.broadcastMany rest
          ⟨s.locks, (s.announcements ++ [Signal.mkAnn m]).drop
            ((s.announcements ++ [Signal.mkAnn m]).length - 200)⟩ := by
        unfold Signal.broadcastMany
        rw [List.foldl_cons]
        congr 1
        unfold Signal.broadcast
        rw [if_neg (by rcases hvm with ⟨h1, h2⟩; rintro (hh | hh) <;> [exact h1 hh; exact h2 hh])]
        rfl
      rw [hstep]
      rw [ih _ (fun x hx => hv x (by simp [hx]))
        (by dsimp only; rw [List.length_drop]; omega)]
      dsimp only
      rw [drop200_append]
      rw [List.append_assoc, List.singleton_append, ← List.map_cons]

/-- C9: the announcement list never exceeds 200 entries, and a sequence of
valid broadcasts into an empty service leaves exactly the most recent
announcements in insertion order, oldest dropped first. -/
theorem C9_announcement_cap :
    (∀ (s : Signal.SignalState) (ms : List Signal.BroadcastMsg),
      s.announcements.length ≤ 200 →
      (Signal.broadcastMany ms s).announcements.length ≤ 200) ∧
    (∀ ms : List Signal.BroadcastMsg, (∀ m ∈ ms, Signal.ValidMsg m) →
      (Signal.broadcastMany ms Signal.emptyState).announcements =
        (ms.map Signal.mkAnn).drop (ms.length - 200)) := by
  constructor
  · intro s ms h
    exact broadcastMany_le ms s h
  · intro ms hv
    have h := broadcastMany_eq ms Signal.emptyState hv (by simp [Signal.emptyState])
    simpa [Signal.emptyState, List.length_map] using h

/-- C9 witness: broadcasting 210 identical valid messages leaves exactly the
most recent 200. -/
theorem C9_announcement_cap_witness :
    (Signal.broadcastMany (List.replicate 210 ("a", "m", 7)) Signal.emptyState).announcements =
      List.replicate 200 (⟨"a", "m", 7⟩ : Signal.SignalAnnouncement) ∧
    (Signal.broadcastMany (List.replicate 210 ("a", "m", 7)) Signal.emptyState).announcements.length ≤ 200 := by
  have h2 := C9_announcement_cap.2 (List.replicate 210 ("a", "m", 7))
    (fun m hm => by rw [List.mem_replicate] at hm; rw [hm.2]; exact ⟨by decide, by decide⟩)
  have h1 := C9_announcement_cap.1 Signal.emptyState (List.replicate 210 ("a", "m", 7))
    (by simp [Signal.emptyState])
  refine ⟨?_, h1⟩
  rw [h2, List.map_replicate, List.length_replicate, List.drop_replicate]
  norm_num
  congr 1

/-- C4 (amended): for every description containing neither sentinel marker,
encoding the path list `["a/b.ts", "./c.ts", "d.ts"]` into the description
and decoding it back yields exactly the deduplicated, normalized list
`["a/b.ts", "c.ts", "d.ts"]` with the sentinel block entirely removed (the
visible description is the trimmed base); encoding an empty or
all-duplicate-empty path list yields the trimmed base with no block at
all. -/
theorem C4_roundtrip (base : String)
    (hs : ¬ Attached.START_MARK <:+: base.data)
    (he : ¬ Attached.END_MARK <:+: base.data) :
    Attached.parseAttachedContextFromDescription
      (Attached.buildDescriptionWithAttachedContext base ["a/b.ts", "./c.ts", "d.ts"]) =
      (String.mk (trimCL base.data), ["a/b.ts", "c.ts", "d.ts"]) ∧
    Attached.buildDescriptionWithAttachedContext base [] = String.mk (trimCL base.data) ∧
    Attached.buildDescriptionWithAttachedContext base ["", " ", "./"] =
      String.mk (trimCL base.data) := by
  have hded : Attached.dedupeAttachedPaths ["a/b.ts", "./c.ts", "d.ts"] =
      ["a/b.ts", "c.ts", "d.ts"] := by decide
  refine ⟨?_, ?_, ?_⟩
  case refine_2 => rfl
  case refine_3 =>
    unfold Attached.buildDescriptionWithAttachedContext
    rw [show Attached.dedupeAttachedPaths ["", " ", "./"] = ([] : List String) from by decide]
    rfl
  case refine_1 =>
    have hbuild : Attached.buildDescriptionWithAttachedContext base ["a/b.ts", "./c.ts", "d.ts"] =
        String.mk (if trimCL base.data = [] then
            Attached.START_MARK ++ '\n' ::
              Attached.jsonStringifyPaths ["a/b.ts", "c.ts", "d.ts"] ++ '\n' :: Attached.END_MARK
          else trimCL base.data ++ '\n' :: '\n' ::
            (Attached.START_MARK ++ '\n' ::
              Attached.jsonStringifyPaths ["a/b.ts", "c.ts", "d.ts"] ++ '\n' :: Attached.END_MARK)) := by
      simp only [Attached.buildDescriptionWithAttachedContext, hded]
      rw [if_neg (by decide)]
    rw [hbuild]
    by_cases hbase : trimCL base.data = []
    · rw [if_pos hbase, hbase]
      decide
    · rw [if_neg hbase]
      have hsa : ¬ Attached.START_MARK <:+: trimCL base.data :=
        fun h => hs (h.trans (trim_occurs base.data))
      have hea : ¬ Attached.END_MARK <:+: trimCL base.data :=
        fun h => he (h.trans (trim_occurs base.data))
      have hfS : findIdx? (trimCL base.data ++ '\n' :: '\n' ::
          (Attached.START_MARK ++ '\n' ::
            Attached.jsonStringifyPaths ["a/b.ts", "c.ts", "d.ts"] ++ '\n' :: Attached.END_MARK))
          Attached.START_MARK = some ((trimCL base.data).length + 2 + 0) :=
        findIdx_nn Attached.START_MARK (by decide) (by decide) _ _ 0 hsa (by decide)
      have hfE : findIdx? (trimCL base.data ++ '\n' :: '\n' ::
          (Attached.START_MARK ++ '\n' ::
            Attached.jsonStringifyPaths ["a/b.ts", "c.ts", "d.ts"] ++ '\n' :: Attached.END_MARK))
          Attached.END_MARK = some ((trimCL base.data).length + 2 + 69) :=
        findIdx_nn Attached.END_MARK (by decide) (by decide) _ _ 69 hea (by decide)
      simp only [Attached.parseAttachedContextFromDescription]
      rw [hfS, hfE]
      dsimp only
      rw [if_neg (by omega)]
      have hws2 : ∀ c ∈ ['\n', '\n'], Char.isWhitespace c = true := by decide
      have hws1 : ∀ c ∈ ['\n'], Char.isWhitespace c = true := by decide
      have hjson : Attached.parseJsonStrings (trimCL (List.take 33 (List.drop 36
          (Attached.START_MARK ++ '\n' ::
            Attached.jsonStringifyPaths ["a/b.ts", "c.ts", "d.ts"] ++
              '\n' :: Attached.END_MARK)))) = some ["a/b.ts", "c.ts", "d.ts"] := by decide
      have hpp : Attached.dedupeAttachedPaths (List.filter (fun s => decide (s ≠ ""))
          (List.map jsTrim ["a/b.ts", "c.ts", "d.ts"])) = ["a/b.ts", "c.ts", "d.ts"] := by
        decide
      have hdrop103 : List.drop 103
          (Attached.START_MARK ++ '\n' ::
            Attached.jsonStringifyPaths ["a/b.ts", "c.ts", "d.ts"] ++
              '\n' :: Attached.END_MARK) = [] := by decide
      set blk : List Char := Attached.START_MARK ++ '\n' ::
        Attached.jsonStringifyPaths ["a/b.ts", "c.ts", "d.ts"] ++
          '\n' :: Attached.END_MARK with hblk
      set a : List Char := trimCL base.data with hA
      have haa : trimCL a = a := by rw [hA]; exact trim_idem base.data
      have hlist : a ++ '\n' :: '\n' :: blk = (a ++ ['\n', '\n']) ++ blk := by simp
      rw [hlist]
      rw [show Attached.START_MARK.length = 36 from by decide]
      rw [show Attached.END_MARK.length = 34 from by decide]
      rw [show a.length + 2 + 69 - (a.length + 2 + 0 + 36) = 33 from by omega]
      rw [show a.length + 2 + 0 + 36 = (a ++ ['\n', '\n']).length + 36 from by simp]
      rw [show a.length + 2 + 69 + 34 = (a ++ ['\n', '\n']).length + 103 from by simp]
      rw [show a.length + 2 + 0 = (a ++ ['\n', '\n']).length + 0 from by simp]
      rw [List.take_append, List.drop_append, List.drop_append]
      simp only [List.take_zero, List.append_nil]
      rw [hjson]
      dsimp only
      rw [hpp, hdrop103]
      rw [trim_append_ws a ['\n', '\n'] hws2, haa]
      rw [show trimCL ([] : List Char) = [] from rfl]
      rw [trim_append_ws a ['\n'] hws1, haa]


/-- C4 counterexample: when the base description itself contains the end
sentinel, the decoder finds that marker before the freshly appended block, so
the round trip returns no paths and leaves the block embedded in the visible
description — refuting the claim as stated for every description. -/
theorem C4_counterexample :
    Attached.parseAttachedContextFromDescription
      (Attached.buildDescriptionWithAttachedContext (String.mk Attached.END_MARK)
        ["a/b.ts", "./c.ts", "d.ts"]) =
      (Attached.buildDescriptionWithAttachedContext (String.mk Attached.END_MARK)
        ["a/b.ts", "./c.ts", "d.ts"], []) ∧
    ¬ (Attached.parseAttachedContextFromDescription
        (Attached.buildDescriptionWithAttachedContext (String.mk Attached.END_MARK)
          ["a/b.ts", "./c.ts", "d.ts"])).2 = ["a/b.ts", "c.ts", "d.ts"] ∧
    strIncludes (Attached.parseAttachedContextFromDescription
        (Attached.buildDescriptionWithAttachedContext (String.mk Attached.END_MARK)
          ["a/b.ts", "./c.ts", "d.ts"])).1 (String.mk Attached.START_MARK) = true := by
  refine ⟨by decide, by decide, by decide⟩

/-- C4 witness: the round trip at a concrete marker-free description. -/
theorem C4_roundtrip_witness :
    Attached.parseAttachedContextFromDescription
      (Attached.buildDescriptionWithAttachedContext "Implement login form"
        ["a/b.ts", "./c.ts", "d.ts"]) =
      ("Implement login form", ["a/b.ts", "c.ts", "d.ts"]) ∧
    Attached.buildDescriptionWithAttachedContext "Implement login form" [] =
      "Implement login form" := by
  have h := C4_roundtrip "Implement login form" (by decide) (by decide)
  have hb : String.mk (trimCL "Implement login form".data) = "Implement login form" := by
    decide
  refine ⟨?_, ?_⟩
  · have h1 := h.1
    rw [hb] at h1
    exact h1
  · have h2 := h.2.1
    rw [hb] at h2
    exact h2

end Wairstro
